import Mathlib

/-!
Shallow embedding of the tetris-rs simulation core (`src/game_state.rs`).

The Rust core is a deterministic, single-threaded state machine:
a 20×10 grid of `i32` occupancy cells, an active piece (enum of 7 shapes),
a rotation index, and an anchor `(row, col)`.  Fallible operations
(array indexing that can panic in Rust, `usize` casts of possibly negative
`i32`, `try_into` of an out-of-range discriminant) are embedded as
`Option`-valued functions: `none` models a Rust panic / `Err`.

Machine integers are embedded as `Int`; all values appearing here stay far
from the `i32` boundaries, and the `as usize` cast of a negative `i32`
(which wraps to a huge index and therefore panics on these length-10/20
arrays) is modelled by returning `none` for a negative index.
-/

namespace TetrisRs

/-- The Rust enum `Piece { O = 0, L, J, T, Z, S, I }`. -/
inductive Piece : Type
  | O | L | J | T | Z | S | I
deriving DecidableEq, Fintype

/-- The enum discriminant, `self.piece as i32`. -/
def Piece.idx : Piece → Int
  | .O => 0 | .L => 1 | .J => 2 | .T => 3 | .Z => 4 | .S => 5 | .I => 6

/-- The Rust impl `TryFrom<i32> for Piece`: `0..=6` map to the pieces in order,
anything else is `Err(())`. -/
def pieceOfInt (v : Int) : Option Piece :=
  if v = 0 then some .O
  else if v = 1 then some .L
  else if v = 2 then some .J
  else if v = 3 then some .T
  else if v = 4 then some .Z
  else if v = 5 then some .S
  else if v = 6 then some .I
  else none

/-- The `ROTATION_OFFSETS` table: for each piece, the 4 rotation states,
each a list of the 4 `(row, col)` offsets occupied in the bounding square.
Transcribed verbatim from the `lazy_static` block. -/
def rotationOffsets : Piece → List (List (Int × Int))
  | .O => [[(0, 0), (0, 1), (1, 0), (1, 1)],
           [(0, 0), (0, 1), (1, 0), (1, 1)],
           [(0, 0), (0, 1), (1, 0), (1, 1)],
           [(0, 0), (0, 1), (1, 0), (1, 1)]]
  | .L => [[(0, 0), (1, 0), (2, 0), (2, 1)],
           [(1, 0), (1, 1), (1, 2), (2, 0)],
           [(0, 0), (0, 1), (1, 1), (2, 1)],
           [(2, 0), (2, 1), (2, 2), (1, 1)]]
  | .J => [[(2, 0), (2, 1), (0, 1), (1, 1)],
           [(1, 0), (2, 0), (2, 1), (2, 2)],
           [(0, 0), (1, 0), (2, 0), (0, 1)],
           [(1, 0), (1, 1), (1, 2), (2, 2)]]
  | .T => [[(0, 0), (0, 1), (0, 2), (1, 1)],
           [(1, 0), (0, 1), (1, 1), (2, 1)],
           [(1, 0), (0, 1), (1, 1), (1, 2)],
           [(0, 0), (1, 0), (2, 0), (1, 1)]]
  | .Z => [[(0, 0), (0, 1), (1, 1), (1, 2)],
           [(1, 0), (0, 1), (1, 1), (2, 0)],
           [(0, 0), (0, 1), (1, 1), (1, 2)],
           [(1, 0), (0, 1), (1, 1), (2, 0)]]
  | .S => [[(1, 0), (0, 1), (1, 1), (0, 2)],
           [(0, 0), (1, 0), (1, 1), (2, 1)],
           [(1, 0), (0, 1), (1, 1), (0, 2)],
           [(0, 0), (1, 0), (1, 1), (2, 1)]]
  | .I => [[(0, 0), (1, 0), (2, 0), (3, 0)],
           [(1, 0), (1, 1), (1, 2), (1, 3)],
           [(0, 0), (1, 0), (2, 0), (3, 0)],
           [(1, 0), (1, 1), (1, 2), (1, 3)]]

/-- Indexing `rotation_offsets[rotation as usize]`: indexing the 4-element rotation
array by an `i32` cast to `usize`.  A negative `i32` wraps to a huge `usize`
and panics, as does an index ≥ 4. -/
def offsetsAt (p : Piece) (rotation : Int) : Option (List (Int × Int)) :=
  if 0 ≤ rotation then (rotationOffsets p)[rotation.toNat]? else none

/-- The Rust constant `NCOLS: usize = 10`. -/
def NCOLS : Nat := 10
/-- The Rust constant `NROWS: usize = 20`. -/
def NROWS : Nat := 20

/-- The Rust type `Grid = [[i32; NCOLS]; NROWS]`, embedded as a list of rows.
`GridWF` below captures the fixed 20×10 dimensions the Rust type enforces. -/
abbrev Grid := List (List Int)

/-- The dimensions fixed by the Rust array type `[[i32; 10]; 20]`. -/
def GridWF (g : Grid) : Prop :=
  g.length = NROWS ∧ ∀ row ∈ g, row.length = NCOLS

instance (g : Grid) : Decidable (GridWF g) := by
  unfold GridWF; exact inferInstance

/-- Read `grid[r as usize][c as usize]`; `none` models the panic on an
out-of-range index (including the wrap of a negative `i32`). -/
def getCell (g : Grid) (r c : Int) : Option Int :=
  if 0 ≤ r ∧ 0 ≤ c then
    (g[r.toNat]?).bind fun row => row[c.toNat]?
  else none

/-- Write `grid[r as usize][c as usize] = v`; `none` models the panic. -/
def setCell (g : Grid) (r c : Int) (v : Int) : Option Grid :=
  if 0 ≤ r ∧ 0 ≤ c then
    (g[r.toNat]?).bind fun row =>
      if c.toNat < row.length then
        some (g.set r.toNat (row.set c.toNat v))
      else none
  else none

/-- The loop body of `update`: write value `v` at each absolute cell. -/
def paintCells (v : Int) : Grid → List (Int × Int) → Option Grid
  | g, [] => some g
  | g, (r, c) :: rest => (setCell g r c v).bind fun g' => paintCells v g' rest

/-- The free function `update(grid, piece, rotation, anchor_row, anchor_col, fill)`:
paint (`fill = true`, value 1) or clear (`fill = false`, value 0) the four
footprint cells of the piece at the given rotation and anchor. -/
def update (g : Grid) (p : Piece) (rotation ar ac : Int) (fill : Bool) :
    Option Grid :=
  (offsetsAt p rotation).bind fun offs =>
    paintCells (if fill then 1 else 0) g
      (offs.map fun o => (ar + o.1, ac + o.2))

/-- The Rust struct `Tetris`. -/
structure Tetris : Type where
  grid : Grid
  piece : Piece
  rotation : Int
  anchor_row : Int
  anchor_col : Int
deriving DecidableEq

/-- The all-zero grid `[[0; 10]; 20]`. -/
def emptyGrid : Grid := List.replicate NROWS (List.replicate NCOLS 0)

/-- The constructor `Tetris::new()`: empty grid, piece `O` painted at rotation 0,
anchor `(0, 4)`.  (`update` cannot actually fail here.) -/
def Tetris.new : Option Tetris :=
  (update emptyGrid .O 0 0 4 true).map fun g =>
    { grid := g, piece := .O, rotation := 0, anchor_row := 0, anchor_col := 4 }

/-- The method `Tetris::falling_piece_positions`: the 4 absolute cells of the falling
piece, `(anchor_row + off_row, anchor_col + off_col)` in table order. -/
def fallingPiecePositions (t : Tetris) : Option (List (Int × Int)) :=
  (offsetsAt t.piece t.rotation).map fun offs =>
    offs.map fun o => (t.anchor_row + o.1, t.anchor_col + o.2)

/-- The loop of `Tetris::fits`: scan the offset cells; `false` as soon as an
occupied cell is found; grid indexing may panic (`none`). -/
def fitsAux (g : Grid) (row col : Int) : List (Int × Int) → Option Bool
  | [] => some true
  | (orow, ocol) :: rest =>
    (getCell g (orow + row) (ocol + col)).bind fun v =>
      if v = 1 then some false else fitsAux g row col rest

/-- The predicate `Tetris::fits(grid, piece, row, col, rotation)`: whether the piece at the
given placement overlaps an occupied cell.  Bounds are a caller
precondition; violating them is `none` (panic). -/
def fits (g : Grid) (p : Piece) (row col rotation : Int) : Option Bool :=
  (offsetsAt p rotation).bind fun offs => fitsAux g row col offs

/-- The loop of `Tetris::can_drop` over the footprint cells, with the full
footprint list `P` fixed for the self-exclusion test.  Mirrors the source's
short-circuit order: bottom-row test first, then the `&&`-guarded grid read. -/
def canDropAux (g : Grid) (P : List (Int × Int)) :
    List (Int × Int) → Option Bool
  | [] => some true
  | (row, col) :: rest =>
    let next_row := row + 1
    if next_row = (NROWS : Int) then some false
    else if (next_row, col) ∈ P then canDropAux g P rest
    else
      (getCell g next_row col).bind fun v =>
        if v = 1 then some false else canDropAux g P rest

/-- The predicate `Tetris::can_drop`: whether the falling piece can drop one more unit. -/
def canDrop (t : Tetris) : Option Bool :=
  (fallingPiecePositions t).bind fun P => canDropAux t.grid P P

/-- One iteration of `shift_down`'s outer loop at row `r ≥ 1`:
`for c in 0..NCOLS { grid[r][c] = grid[r-1][c] }`.  The Rust row type is a
fixed `[i32; 10]`, so the cell-wise loop copies the whole row; rows of any
other length cannot occur in Rust and are mapped to `none`. -/
def copyRowFromAbove (g : Grid) (r : Nat) : Option Grid :=
  match g[r]?, g[r - 1]? with
  | some dst, some src =>
    if dst.length = NCOLS ∧ src.length = NCOLS then some (g.set r src)
    else none
  | _, _ => none

/-- The zeroing loop `for c in 0..NCOLS { grid[0][c] = 0 }`. -/
def zeroTopRow (g : Grid) : Option Grid :=
  match g[0]? with
  | some r0 => if r0.length = NCOLS then some (g.set 0 (List.replicate NCOLS 0))
               else none
  | none => none

/-- The outer loop `for r in (1..row).rev()`: process `r = k, k-1, …, 1`. -/
def shiftDownLoop : Grid → Nat → Option Grid
  | g, 0 => some g
  | g, r + 1 => (copyRowFromAbove g (r + 1)).bind fun g' => shiftDownLoop g' r

/-- The method `Tetris::shift_down(row)`: rows `row-1` down to `1` each receive the row
above them, then row 0 is zeroed.  Note the Rust range `1..row` is exclusive:
row `row` itself is never written.  A negative `row` wraps under `as usize`
and panics (`none`). -/
def shiftDown (g : Grid) (row : Int) : Option Grid :=
  if 0 ≤ row then (shiftDownLoop g (row.toNat - 1)).bind zeroTopRow
  else none

/-- The row sum `self.grid[row as usize].iter().sum::<i32>()`. -/
def rowSum (g : Grid) (row : Int) : Option Int :=
  if 0 ≤ row then (g[row.toNat]?).map (·.foldr (· + ·) 0)
  else none

/-- The `min_row` accumulation: fold of `min` over footprint rows, seeded with
`NROWS as i32`. -/
def minRow (P : List (Int × Int)) : Int :=
  P.foldl (fun m p => min m p.1) (NROWS : Int)

/-- The `max_row` accumulation: fold of `max` over footprint rows, seeded with 0. -/
def maxRow (P : List (Int × Int)) : Int :=
  P.foldl (fun m p => max m p.1) 0

/-- The row-clearing loop `for row in min_row..=max_row`, driven by fuel
`n = max_row + 1 - min_row`: sum row `row`; if it equals `NCOLS`, shift. -/
def clearLoop : Grid → Int → Nat → Option Grid
  | g, _, 0 => some g
  | g, row, n + 1 =>
    (rowSum g row).bind fun s =>
      (if s = (NCOLS : Int) then shiftDown g row else some g).bind fun g' =>
        clearLoop g' (row + 1) n

/-- The method `Tetris::tick`: one gravity step.  Returns the continue/stop flag and
the successor state; `none` models a panic. -/
def tick (t : Tetris) : Option (Bool × Tetris) :=
  (canDrop t).bind fun cd =>
  if cd then
    (update t.grid t.piece t.rotation t.anchor_row t.anchor_col false).bind
      fun g1 =>
    (update g1 t.piece t.rotation (t.anchor_row + 1) t.anchor_col true).map
      fun g2 =>
    (true, { t with grid := g2, anchor_row := t.anchor_row + 1 })
  else
    (fallingPiecePositions t).bind fun P =>
    (clearLoop t.grid (minRow P) (maxRow P + 1 - minRow P).toNat).bind fun g1 =>
    (pieceOfInt ((t.piece.idx + 1) % 7)).bind fun np =>
    (fits g1 np 0 4 0).bind fun f =>
    if f then
      (update g1 np 0 0 4 true).map fun g2 =>
        (true, { grid := g2, piece := np, rotation := 0,
                 anchor_row := 0, anchor_col := 4 })
    else
      some (false, { t with grid := g1 })

/-- The entry point `pub fn event() {}`: it takes no intent data and no
state (not even `&self`), so as a transformation of the simulation state it
is the identity. -/
def Tetris.event (t : Tetris) : Tetris := t

end TetrisRs

/-! ## Specification-side definitions: invariants, reachability, succession -/

namespace TetrisRs

/-- A cell index within the 20×10 grid. -/
def InBounds (r c : Int) : Prop :=
  0 ≤ r ∧ r < (NROWS : Int) ∧ 0 ≤ c ∧ c < (NCOLS : Int)

instance (r c : Int) : Decidable (InBounds r c) := by
  unfold InBounds; exact inferInstance

/-- All cells of an (optional) footprint are within grid bounds;
an undefined footprint (a panic) violates the invariant. -/
def FootprintInBounds : Option (List (Int × Int)) → Prop
  | none => False
  | some P => ∀ q ∈ P, InBounds q.1 q.2

instance : (o : Option (List (Int × Int))) → Decidable (FootprintInBounds o)
  | none => isFalse fun h => h
  | some P => inferInstanceAs (Decidable (∀ q ∈ P, InBounds q.1 q.2))

/-- All cells of an (optional) footprint are marked `1` in the grid. -/
def FootprintPainted (g : Grid) : Option (List (Int × Int)) → Prop
  | none => False
  | some P => ∀ q ∈ P, getCell g q.1 q.2 = some 1

instance (g : Grid) : (o : Option (List (Int × Int))) →
    Decidable (FootprintPainted g o)
  | none => isFalse fun h => h
  | some P => inferInstanceAs (Decidable (∀ q ∈ P, getCell g q.1 q.2 = some 1))

/-- The footprint invariant of §3 / C9: the grid has the dimensions fixed by
the Rust type, the rotation index is in `[0, 4)`, and all four footprint
cells lie within `[0, 20) × [0, 10)`. -/
def FootInv (t : Tetris) : Prop :=
  GridWF t.grid ∧ 0 ≤ t.rotation ∧ t.rotation < 4 ∧
    FootprintInBounds (fallingPiecePositions t)

instance (t : Tetris) : Decidable (FootInv t) := by
  unfold FootInv; exact inferInstance

/-- The full state invariant of §3: the footprint invariant plus every
footprint cell marked occupied in the grid. -/
def Inv (t : Tetris) : Prop :=
  FootInv t ∧ FootprintPainted t.grid (fallingPiecePositions t)

instance (t : Tetris) : Decidable (Inv t) := by
  unfold Inv; exact inferInstance

/-- The deterministic successor in the fixed enumeration order
`O, L, J, T, Z, S, I` (wrapping from `I` back to `O`): the piece whose
discriminant is `(current + 1) % 7`. -/
def nextPiece : Piece → Piece
  | .O => .L | .L => .J | .J => .T | .T => .Z | .Z => .S | .S => .I | .I => .O

/-- A footprint shifted one row lower. -/
def shiftedDown1 (P : List (Int × Int)) : List (Int × Int) :=
  P.map fun q => (q.1 + 1, q.2)

/-- The state part of a `tick`, regardless of the continue/stop flag. -/
def stepState (t : Tetris) : Option Tetris := (tick t).map Prod.snd

/-- Iterated ticking from a given state (`none` once any tick panics). -/
def orbitFrom (t : Tetris) : Nat → Option Tetris
  | 0 => some t
  | n + 1 => (tick t).bind fun r => orbitFrom r.2 n

/-- The deterministic orbit of the simulation: since `event` accepts no
data and `tick` takes no input, every reachable state is `orbit n` for
some `n`. -/
def orbit (n : Nat) : Option Tetris :=
  Tetris.new.bind fun t => orbitFrom t n

/-- A state is reachable when some number of ticks from `new()` produces
it. -/
def Reachable (s : Tetris) : Prop := ∃ n, orbit n = some s

/-- Run `n` ticks, requiring each to report "continue" (`none` if any tick
panics or reports game over). -/
def ticksAllTrue : Nat → Tetris → Option Tetris
  | 0, t => some t
  | n + 1, t => (tick t).bind fun r => if r.1 then ticksAllTrue n r.2 else none

/-- The state `Tetris::new()` produces: empty grid with piece `O` painted at anchor `(0, 4)`. -/
def initState : Tetris where
  grid :=
   [[0, 0, 0, 0, 1, 1, 0, 0, 0, 0],
    [0, 0, 0, 0, 1, 1, 0, 0, 0, 0],
    [0, 0, 0, 0, 0, 0, 0, 0, 0, 0],
    [0, 0, 0, 0, 0, 0, 0, 0, 0, 0],
    [0, 0, 0, 0, 0, 0, 0, 0, 0, 0],
    [0, 0, 0, 0, 0, 0, 0, 0, 0, 0],
    [0, 0, 0, 0, 0, 0, 0, 0, 0, 0],
    [0, 0, 0, 0, 0, 0, 0, 0, 0, 0],
    [0, 0, 0, 0, 0, 0, 0, 0, 0, 0],
    [0, 0, 0, 0, 0, 0, 0, 0, 0, 0],
    [0, 0, 0, 0, 0, 0, 0, 0, 0, 0],
    [0, 0, 0, 0, 0, 0, 0, 0, 0, 0],
    [0, 0, 0, 0, 0, 0, 0, 0, 0, 0],
    [0, 0, 0, 0, 0, 0, 0, 0, 0, 0],
    [0, 0, 0, 0, 0, 0, 0, 0, 0, 0],
    [0, 0, 0, 0, 0, 0, 0, 0, 0, 0],
    [0, 0, 0, 0, 0, 0, 0, 0, 0, 0],
    [0, 0, 0, 0, 0, 0, 0, 0, 0, 0],
    [0, 0, 0, 0, 0, 0, 0, 0, 0, 0],
    [0, 0, 0, 0, 0, 0, 0, 0, 0, 0]]
  piece := .O
  rotation := 0
  anchor_row := 0
  anchor_col := 4

/-- The state reached from `new()` after 80 ticks: the deterministic orbit's game-over fixed point (the 81st tick returns false and changes nothing). -/
def gameOverState : Tetris where
  grid :=
   [[0, 0, 0, 0, 0, 0, 0, 0, 0, 0],
    [0, 0, 0, 0, 1, 1, 0, 0, 0, 0],
    [0, 0, 0, 0, 1, 1, 0, 0, 0, 0],
    [0, 0, 0, 0, 1, 0, 0, 0, 0, 0],
    [0, 0, 0, 0, 1, 0, 0, 0, 0, 0],
    [0, 0, 0, 0, 1, 0, 0, 0, 0, 0],
    [0, 0, 0, 0, 1, 1, 1, 0, 0, 0],
    [0, 0, 0, 0, 1, 1, 0, 0, 0, 0],
    [0, 0, 0, 0, 1, 1, 0, 0, 0, 0],
    [0, 0, 0, 0, 0, 1, 1, 0, 0, 0],
    [0, 0, 0, 0, 1, 1, 1, 0, 0, 0],
    [0, 0, 0, 0, 0, 1, 0, 0, 0, 0],
    [0, 0, 0, 0, 0, 1, 0, 0, 0, 0],
    [0, 0, 0, 0, 0, 1, 0, 0, 0, 0],
    [0, 0, 0, 0, 1, 1, 0, 0, 0, 0],
    [0, 0, 0, 0, 1, 0, 0, 0, 0, 0],
    [0, 0, 0, 0, 1, 0, 0, 0, 0, 0],
    [0, 0, 0, 0, 1, 1, 0, 0, 0, 0],
    [0, 0, 0, 0, 1, 1, 0, 0, 0, 0],
    [0, 0, 0, 0, 1, 1, 0, 0, 0, 0]]
  piece := .O
  rotation := 0
  anchor_row := 1
  anchor_col := 4

/-- The state after 19 ticks from `new()`: the first `O` piece rests at the bottom (rows 18-19, cols 4-5) and the second piece `L` has just spawned at anchor `(0, 4)`. -/
def c8State : Tetris where
  grid :=
   [[0, 0, 0, 0, 1, 0, 0, 0, 0, 0],
    [0, 0, 0, 0, 1, 0, 0, 0, 0, 0],
    [0, 0, 0, 0, 1, 1, 0, 0, 0, 0],
    [0, 0, 0, 0, 0, 0, 0, 0, 0, 0],
    [0, 0, 0, 0, 0, 0, 0, 0, 0, 0],
    [0, 0, 0, 0, 0, 0, 0, 0, 0, 0],
    [0, 0, 0, 0, 0, 0, 0, 0, 0, 0],
    [0, 0, 0, 0, 0, 0, 0, 0, 0, 0],
    [0, 0, 0, 0, 0, 0, 0, 0, 0, 0],
    [0, 0, 0, 0, 0, 0, 0, 0, 0, 0],
    [0, 0, 0, 0, 0, 0, 0, 0, 0, 0],
    [0, 0, 0, 0, 0, 0, 0, 0, 0, 0],
    [0, 0, 0, 0, 0, 0, 0, 0, 0, 0],
    [0, 0, 0, 0, 0, 0, 0, 0, 0, 0],
    [0, 0, 0, 0, 0, 0, 0, 0, 0, 0],
    [0, 0, 0, 0, 0, 0, 0, 0, 0, 0],
    [0, 0, 0, 0, 0, 0, 0, 0, 0, 0],
    [0, 0, 0, 0, 0, 0, 0, 0, 0, 0],
    [0, 0, 0, 0, 1, 1, 0, 0, 0, 0],
    [0, 0, 0, 0, 1, 1, 0, 0, 0, 0]]
  piece := .L
  rotation := 0
  anchor_row := 0
  anchor_col := 4

/-- A landed-piece scenario: piece `O` at anchor `(18, 4)` sits on the floor and its bottom cells complete row 19 (all ten cells of row 19 are occupied). -/
def c1State : Tetris where
  grid :=
   [[0, 0, 0, 0, 0, 0, 0, 0, 0, 0],
    [0, 0, 0, 0, 0, 0, 0, 0, 0, 0],
    [0, 0, 0, 0, 0, 0, 0, 0, 0, 0],
    [0, 0, 0, 0, 0, 0, 0, 0, 0, 0],
    [0, 0, 0, 0, 0, 0, 0, 0, 0, 0],
    [0, 0, 0, 0, 0, 0, 0, 0, 0, 0],
    [0, 0, 0, 0, 0, 0, 0, 0, 0, 0],
    [0, 0, 0, 0, 0, 0, 0, 0, 0, 0],
    [0, 0, 0, 0, 0, 0, 0, 0, 0, 0],
    [0, 0, 0, 0, 0, 0, 0, 0, 0, 0],
    [0, 0, 0, 0, 0, 0, 0, 0, 0, 0],
    [0, 0, 0, 0, 0, 0, 0, 0, 0, 0],
    [0, 0, 0, 0, 0, 0, 0, 0, 0, 0],
    [0, 0, 0, 0, 0, 0, 0, 0, 0, 0],
    [0, 0, 0, 0, 0, 0, 0, 0, 0, 0],
    [0, 0, 0, 0, 0, 0, 0, 0, 0, 0],
    [0, 0, 0, 0, 0, 0, 0, 0, 0, 0],
    [0, 0, 0, 0, 0, 0, 0, 0, 0, 0],
    [0, 0, 0, 0, 1, 1, 0, 0, 0, 0],
    [1, 1, 1, 1, 1, 1, 1, 1, 1, 1]]
  piece := .O
  rotation := 0
  anchor_row := 18
  anchor_col := 4

/-- What `tick` actually produces from `c1State`: row 19 is still completely full (`shift_down(19)` never writes row 19), old row 18 was discarded, and the successor `L` spawned at `(0, 4)`. -/
def c1Result : Tetris where
  grid :=
   [[0, 0, 0, 0, 1, 0, 0, 0, 0, 0],
    [0, 0, 0, 0, 1, 0, 0, 0, 0, 0],
    [0, 0, 0, 0, 1, 1, 0, 0, 0, 0],
    [0, 0, 0, 0, 0, 0, 0, 0, 0, 0],
    [0, 0, 0, 0, 0, 0, 0, 0, 0, 0],
    [0, 0, 0, 0, 0, 0, 0, 0, 0, 0],
    [0, 0, 0, 0, 0, 0, 0, 0, 0, 0],
    [0, 0, 0, 0, 0, 0, 0, 0, 0, 0],
    [0, 0, 0, 0, 0, 0, 0, 0, 0, 0],
    [0, 0, 0, 0, 0, 0, 0, 0, 0, 0],
    [0, 0, 0, 0, 0, 0, 0, 0, 0, 0],
    [0, 0, 0, 0, 0, 0, 0, 0, 0, 0],
    [0, 0, 0, 0, 0, 0, 0, 0, 0, 0],
    [0, 0, 0, 0, 0, 0, 0, 0, 0, 0],
    [0, 0, 0, 0, 0, 0, 0, 0, 0, 0],
    [0, 0, 0, 0, 0, 0, 0, 0, 0, 0],
    [0, 0, 0, 0, 0, 0, 0, 0, 0, 0],
    [0, 0, 0, 0, 0, 0, 0, 0, 0, 0],
    [0, 0, 0, 0, 0, 0, 0, 0, 0, 0],
    [1, 1, 1, 1, 1, 1, 1, 1, 1, 1]]
  piece := .L
  rotation := 0
  anchor_row := 0
  anchor_col := 4

/-- A game-over scenario: piece `O` rests on the floor at anchor `(18, 4)`, no row is full, and cell `(0, 4)` blocks the successor `L` from spawning. -/
def c2State : Tetris where
  grid :=
   [[0, 0, 0, 0, 1, 0, 0, 0, 0, 0],
    [0, 0, 0, 0, 0, 0, 0, 0, 0, 0],
    [0, 0, 0, 0, 0, 0, 0, 0, 0, 0],
    [0, 0, 0, 0, 0, 0, 0, 0, 0, 0],
    [0, 0, 0, 0, 0, 0, 0, 0, 0, 0],
    [0, 0, 0, 0, 0, 0, 0, 0, 0, 0],
    [0, 0, 0, 0, 0, 0, 0, 0, 0, 0],
    [0, 0, 0, 0, 0, 0, 0, 0, 0, 0],
    [0, 0, 0, 0, 0, 0, 0, 0, 0, 0],
    [0, 0, 0, 0, 0, 0, 0, 0, 0, 0],
    [0, 0, 0, 0, 0, 0, 0, 0, 0, 0],
    [0, 0, 0, 0, 0, 0, 0, 0, 0, 0],
    [0, 0, 0, 0, 0, 0, 0, 0, 0, 0],
    [0, 0, 0, 0, 0, 0, 0, 0, 0, 0],
    [0, 0, 0, 0, 0, 0, 0, 0, 0, 0],
    [0, 0, 0, 0, 0, 0, 0, 0, 0, 0],
    [0, 0, 0, 0, 0, 0, 0, 0, 0, 0],
    [0, 0, 0, 0, 0, 0, 0, 0, 0, 0],
    [0, 0, 0, 0, 1, 1, 0, 0, 0, 0],
    [0, 0, 0, 0, 1, 1, 0, 0, 0, 0]]
  piece := .O
  rotation := 0
  anchor_row := 18
  anchor_col := 4


end TetrisRs

namespace TetrisRs

/-- The state after one tick from `new()`: the `O` piece has dropped to anchor `(1, 4)`. -/
def oneTickState : Tetris where
  grid :=
   [[0, 0, 0, 0, 0, 0, 0, 0, 0, 0],
    [0, 0, 0, 0, 1, 1, 0, 0, 0, 0],
    [0, 0, 0, 0, 1, 1, 0, 0, 0, 0],
    [0, 0, 0, 0, 0, 0, 0, 0, 0, 0],
    [0, 0, 0, 0, 0, 0, 0, 0, 0, 0],
    [0, 0, 0, 0, 0, 0, 0, 0, 0, 0],
    [0, 0, 0, 0, 0, 0, 0, 0, 0, 0],
    [0, 0, 0, 0, 0, 0, 0, 0, 0, 0],
    [0, 0, 0, 0, 0, 0, 0, 0, 0, 0],
    [0, 0, 0, 0, 0, 0, 0, 0, 0, 0],
    [0, 0, 0, 0, 0, 0, 0, 0, 0, 0],
    [0, 0, 0, 0, 0, 0, 0, 0, 0, 0],
    [0, 0, 0, 0, 0, 0, 0, 0, 0, 0],
    [0, 0, 0, 0, 0, 0, 0, 0, 0, 0],
    [0, 0, 0, 0, 0, 0, 0, 0, 0, 0],
    [0, 0, 0, 0, 0, 0, 0, 0, 0, 0],
    [0, 0, 0, 0, 0, 0, 0, 0, 0, 0],
    [0, 0, 0, 0, 0, 0, 0, 0, 0, 0],
    [0, 0, 0, 0, 0, 0, 0, 0, 0, 0],
    [0, 0, 0, 0, 0, 0, 0, 0, 0, 0]]
  piece := .O
  rotation := 0
  anchor_row := 1
  anchor_col := 4

end TetrisRs

/-! ## Cell-level lemmas about `getCell`, `setCell`, `paintCells` -/

namespace TetrisRs

/-- A successful `setCell` decomposed into its constituents. -/
lemma setCell_inv {g g' : Grid} {r c v : Int} (h : setCell g r c v = some g') :
    0 ≤ r ∧ 0 ≤ c ∧ ∃ row, g[r.toNat]? = some row ∧ c.toNat < row.length ∧
      g' = g.set r.toNat (row.set c.toNat v) := by
  unfold setCell at h
  by_cases hrc : 0 ≤ r ∧ 0 ≤ c
  · rw [if_pos hrc] at h
    cases hrow : g[r.toNat]? with
    | none => rw [hrow] at h; exact absurd h (by simp)
    | some row =>
      rw [hrow, Option.some_bind] at h
      by_cases hc : c.toNat < row.length
      · rw [if_pos hc] at h
        exact ⟨hrc.1, hrc.2, row, rfl, hc, (Option.some_inj.mp h).symm⟩
      · rw [if_neg hc] at h; exact absurd h (by simp)
  · rw [if_neg hrc] at h; exact absurd h (by simp)

lemma getCell_isSome {g : Grid} {r c : Int} (hwf : GridWF g) (hb : InBounds r c) :
    ∃ v, getCell g r c = some v := by
  obtain ⟨hlen, hrows⟩ := hwf
  obtain ⟨hr0, hrN, hc0, hcN⟩ := hb
  unfold NROWS at hrN
  unfold NCOLS at hcN
  have hr : r.toNat < g.length := by rw [hlen]; unfold NROWS; omega
  have hmem : g[r.toNat] ∈ g := List.getElem_mem hr
  have hclen : c.toNat < (g[r.toNat]).length := by
    rw [hrows _ hmem]; unfold NCOLS; omega
  refine ⟨(g[r.toNat])[c.toNat], ?_⟩
  unfold getCell
  rw [if_pos ⟨hr0, hc0⟩, List.getElem?_eq_getElem hr, Option.some_bind]
  exact List.getElem?_eq_getElem hclen

lemma setCell_isSome {g : Grid} {r c : Int} (v : Int) (hwf : GridWF g)
    (hb : InBounds r c) : ∃ g', setCell g r c v = some g' := by
  obtain ⟨hlen, hrows⟩ := hwf
  obtain ⟨hr0, hrN, hc0, hcN⟩ := hb
  unfold NROWS at hrN
  unfold NCOLS at hcN
  have hr : r.toNat < g.length := by rw [hlen]; unfold NROWS; omega
  have hmem : g[r.toNat] ∈ g := List.getElem_mem hr
  have hclen : c.toNat < (g[r.toNat]).length := by
    rw [hrows _ hmem]; unfold NCOLS; omega
  refine ⟨g.set r.toNat ((g[r.toNat]).set c.toNat v), ?_⟩
  unfold setCell
  rw [if_pos ⟨hr0, hc0⟩, List.getElem?_eq_getElem hr]
  simp [hclen]

lemma GridWF_of_setCell {g g' : Grid} {r c v : Int}
    (h : setCell g r c v = some g') (hwf : GridWF g) : GridWF g' := by
  obtain ⟨-, -, row, hrow, -, hg'⟩ := setCell_inv h
  obtain ⟨hlen, hrows⟩ := hwf
  subst hg'
  constructor
  · rw [List.length_set]; exact hlen
  · intro row' hmem'
    rcases List.mem_or_eq_of_mem_set hmem' with h' | h'
    · exact hrows _ h'
    · subst h'
      rw [List.length_set]
      obtain ⟨hlt, hget⟩ := List.getElem?_eq_some.mp hrow
      exact hget ▸ hrows _ (List.getElem_mem hlt)

lemma getCell_setCell_eq {g g' : Grid} {r c v : Int}
    (h : setCell g r c v = some g') : getCell g' r c = some v := by
  obtain ⟨hr0, hc0, row, hrow, hc, hg'⟩ := setCell_inv h
  obtain ⟨hlt, -⟩ := List.getElem?_eq_some.mp hrow
  subst hg'
  unfold getCell
  rw [if_pos ⟨hr0, hc0⟩, List.getElem?_set_eq_of_lt _ hlt, Option.some_bind]
  exact List.getElem?_set_eq_of_lt _ hc

lemma getCell_setCell_ne {g g' : Grid} {r c v : Int}
    (h : setCell g r c v = some g') {r' c' : Int} (hne : (r', c') ≠ (r, c)) :
    getCell g' r' c' = getCell g r' c' := by
  obtain ⟨hr0, hc0, row, hrow, hc, hg'⟩ := setCell_inv h
  subst hg'
  unfold getCell
  by_cases hrc' : 0 ≤ r' ∧ 0 ≤ c'
  · obtain ⟨hr'0, hc'0⟩ := hrc'
    rw [if_pos ⟨hr'0, hc'0⟩, if_pos ⟨hr'0, hc'0⟩]
    by_cases hrr : r' = r
    · subst hrr
      have hcc : c' ≠ c := fun hcc => hne (by rw [hcc])
      have hccN : c.toNat ≠ c'.toNat := fun hN => hcc (by omega)
      obtain ⟨hlt, -⟩ := List.getElem?_eq_some.mp hrow
      rw [List.getElem?_set_eq_of_lt _ hlt, hrow, Option.some_bind,
        Option.some_bind, List.getElem?_set_ne hccN]
    · have hrrN : r.toNat ≠ r'.toNat := fun hN => hrr (by omega)
      rw [List.getElem?_set_ne hrrN]
  · rw [if_neg hrc', if_neg hrc']

lemma paintCells_isSome {v : Int} {L : List (Int × Int)} {g : Grid}
    (hwf : GridWF g) (hb : ∀ q ∈ L, InBounds q.1 q.2) :
    ∃ g', paintCells v g L = some g' ∧ GridWF g' := by
  induction L generalizing g with
  | nil => exact ⟨g, rfl, hwf⟩
  | cons a rest ih =>
    obtain ⟨g1, hg1⟩ := setCell_isSome v hwf (hb a (List.mem_cons_self a rest))
    have hwf1 := GridWF_of_setCell hg1 hwf
    obtain ⟨g', hg', hwf'⟩ := ih hwf1 (fun q hq => hb q (List.mem_cons_of_mem a hq))
    refine ⟨g', ?_, hwf'⟩
    rw [paintCells, hg1, Option.some_bind]
    exact hg'

lemma GridWF_of_paintCells {v : Int} {L : List (Int × Int)} {g g' : Grid}
    (h : paintCells v g L = some g') (hwf : GridWF g) : GridWF g' := by
  induction L generalizing g with
  | nil => rw [paintCells] at h; exact Option.some_inj.mp h ▸ hwf
  | cons a rest ih =>
    rw [paintCells] at h
    cases hset : setCell g a.1 a.2 v with
    | none => rw [hset] at h; exact absurd h (by simp)
    | some g1 =>
      rw [hset, Option.some_bind] at h
      exact ih h (GridWF_of_setCell hset hwf)

lemma getCell_paintCells_notMem {v : Int} {L : List (Int × Int)} {g g' : Grid}
    (h : paintCells v g L = some g') {r c : Int} (hn : (r, c) ∉ L) :
    getCell g' r c = getCell g r c := by
  induction L generalizing g with
  | nil => rw [paintCells] at h; rw [Option.some_inj.mp h]
  | cons a rest ih =>
    rw [paintCells] at h
    cases hset : setCell g a.1 a.2 v with
    | none => rw [hset] at h; exact absurd h (by simp)
    | some g1 =>
      rw [hset, Option.some_bind] at h
      have hna : (r, c) ≠ a := fun he => hn (he ▸ List.mem_cons_self a rest)
      rw [ih h (fun hm => hn (List.mem_cons_of_mem a hm)),
        getCell_setCell_ne hset hna]

lemma getCell_paintCells_mem {v : Int} {L : List (Int × Int)} {g g' : Grid}
    (h : paintCells v g L = some g') {q : Int × Int} (hq : q ∈ L) :
    getCell g' q.1 q.2 = some v := by
  induction L generalizing g with
  | nil => exact absurd hq (List.not_mem_nil q)
  | cons a rest ih =>
    rw [paintCells] at h
    cases hset : setCell g a.1 a.2 v with
    | none => rw [hset] at h; exact absurd h (by simp)
    | some g1 =>
      rw [hset, Option.some_bind] at h
      by_cases hrest : q ∈ rest
      · exact ih h hrest
      · have hqa : q = a := by
          rcases List.mem_cons.mp hq with h' | h'
          · exact h'
          · exact absurd h' hrest
        subst hqa
        rw [getCell_paintCells_notMem h (by
          intro hm
          exact hrest (by simpa using hm))]
        exact getCell_setCell_eq hset

end TetrisRs

/-! ## Offsets, footprints, `canDrop` and `fits` -/

namespace TetrisRs

lemma rotationOffsets_length (p : Piece) : (rotationOffsets p).length = 4 := by
  cases p <;> rfl

lemma offsetsAt_eq_some {p : Piece} {ρ : Int} (h0 : 0 ≤ ρ) (h4 : ρ < 4) :
    ∃ offs, offsetsAt p ρ = some offs ∧ offs ∈ rotationOffsets p := by
  have hlt : ρ.toNat < (rotationOffsets p).length := by
    rw [rotationOffsets_length]; omega
  refine ⟨(rotationOffsets p)[ρ.toNat], ?_, List.getElem_mem hlt⟩
  unfold offsetsAt
  rw [if_pos h0]
  exact List.getElem?_eq_getElem hlt

lemma offsets_bound :
    ∀ p : Piece, ∀ offs ∈ rotationOffsets p, ∀ o ∈ offs,
      0 ≤ o.1 ∧ o.1 ≤ 3 ∧ 0 ≤ o.2 ∧ o.2 ≤ 3 := by decide

lemma fallingPiecePositions_eq {t : Tetris}
    (h0 : 0 ≤ t.rotation) (h4 : t.rotation < 4) :
    ∃ offs, offsetsAt t.piece t.rotation = some offs ∧
      offs ∈ rotationOffsets t.piece ∧
      fallingPiecePositions t =
        some (offs.map fun o => (t.anchor_row + o.1, t.anchor_col + o.2)) := by
  obtain ⟨offs, hoffs, hmem⟩ := offsetsAt_eq_some (p := t.piece) h0 h4
  exact ⟨offs, hoffs, hmem, by rw [fallingPiecePositions, hoffs, Option.map_some']⟩

/-- The loop of `can_drop` never panics when every scanned cell is in
bounds, and its `false` result is exactly the existence of a blocking
cell. -/
lemma canDropAux_false_iff {g : Grid} {P L : List (Int × Int)}
    (hwf : GridWF g) (hb : ∀ q ∈ L, InBounds q.1 q.2) :
    canDropAux g P L = some false ↔
      ∃ q ∈ L, q.1 + 1 = (NROWS : Int) ∨
        ((q.1 + 1, q.2) ∉ P ∧ getCell g (q.1 + 1) q.2 = some 1) := by
  induction L with
  | nil => simp [canDropAux]
  | cons a rest ih =>
    have hba : InBounds a.1 a.2 := hb a (List.mem_cons_self a rest)
    have hbrest : ∀ q ∈ rest, InBounds q.1 q.2 :=
      fun q hq => hb q (List.mem_cons_of_mem a hq)
    obtain ⟨ha1, ha2, ha3, ha4⟩ := hba
    rw [show a = (a.1, a.2) from rfl, canDropAux]
    by_cases hbot : a.1 + 1 = (NROWS : Int)
    · rw [if_pos hbot]
      simp only [true_iff, eq_self_iff_true]
      exact ⟨(a.1, a.2), List.mem_cons_self _ _, Or.inl hbot⟩
    · rw [if_neg hbot]
      by_cases hmem : (a.1 + 1, a.2) ∈ P
      · rw [if_pos hmem, ih hbrest]
        constructor
        · rintro ⟨q, hq, hcond⟩
          exact ⟨q, List.mem_cons_of_mem a hq, hcond⟩
        · rintro ⟨q, hq, hcond⟩
          rcases List.mem_cons.mp hq with hqa | hqr
          · subst hqa
            rcases hcond with h' | h'
            · exact absurd h' hbot
            · exact absurd hmem h'.1
          · exact ⟨q, hqr, hcond⟩
      · rw [if_neg hmem]
        have hbnext : InBounds (a.1 + 1) a.2 := by
          refine ⟨by omega, ?_, ha3, ha4⟩
          have : a.1 + 1 ≠ (NROWS : Int) := hbot
          unfold NROWS at this ha2 ⊢
          omega
        obtain ⟨v, hv⟩ := getCell_isSome hwf hbnext
        rw [hv, Option.some_bind]
        by_cases hv1 : v = 1
        · subst hv1
          rw [if_pos rfl]
          simp only [true_iff, eq_self_iff_true]
          exact ⟨(a.1, a.2), List.mem_cons_self _ _, Or.inr ⟨hmem, hv⟩⟩
        · rw [if_neg hv1, ih hbrest]
          constructor
          · rintro ⟨q, hq, hcond⟩
            exact ⟨q, List.mem_cons_of_mem a hq, hcond⟩
          · rintro ⟨q, hq, hcond⟩
            rcases List.mem_cons.mp hq with hqa | hqr
            · subst hqa
              rcases hcond with h' | h'
              · exact absurd h' hbot
              · rw [hv] at h'
                exact absurd (Option.some_inj.mp h'.2) hv1
            · exact ⟨q, hqr, hcond⟩

lemma canDropAux_isSome {g : Grid} {P L : List (Int × Int)}
    (hwf : GridWF g) (hb : ∀ q ∈ L, InBounds q.1 q.2) :
    ∃ b, canDropAux g P L = some b := by
  induction L with
  | nil => exact ⟨true, rfl⟩
  | cons a rest ih =>
    have hba : InBounds a.1 a.2 := hb a (List.mem_cons_self a rest)
    have hbrest : ∀ q ∈ rest, InBounds q.1 q.2 :=
      fun q hq => hb q (List.mem_cons_of_mem a hq)
    obtain ⟨ha1, ha2, ha3, ha4⟩ := hba
    obtain ⟨b, hbr⟩ := ih hbrest
    rw [show a = (a.1, a.2) from rfl, canDropAux]
    by_cases hbot : a.1 + 1 = (NROWS : Int)
    · exact ⟨false, by rw [if_pos hbot]⟩
    · rw [if_neg hbot]
      by_cases hmem : (a.1 + 1, a.2) ∈ P
      · exact ⟨b, by rw [if_pos hmem]; exact hbr⟩
      · rw [if_neg hmem]
        have hbnext : InBounds (a.1 + 1) a.2 := by
          refine ⟨by omega, ?_, ha3, ha4⟩
          have : a.1 + 1 ≠ (NROWS : Int) := hbot
          unfold NROWS at this ha2 ⊢
          omega
        obtain ⟨v, hv⟩ := getCell_isSome hwf hbnext
        rw [hv, Option.some_bind]
        by_cases hv1 : v = 1
        · exact ⟨false, by rw [if_pos hv1]⟩
        · exact ⟨b, by rw [if_neg hv1]; exact hbr⟩

/-- From a `true` answer of the loop: no footprint cell sits on the bottom
row. -/
lemma canDropAux_true_no_bottom {g : Grid} {P L : List (Int × Int)}
    (hwf : GridWF g) (hb : ∀ q ∈ L, InBounds q.1 q.2)
    (h : canDropAux g P L = some true) :
    ∀ q ∈ L, q.1 + 1 ≠ (NROWS : Int) := by
  intro q hq hbot
  have : canDropAux g P L = some false := by
    rw [canDropAux_false_iff hwf hb]
    exact ⟨q, hq, Or.inl hbot⟩
  rw [h] at this
  exact absurd (Option.some_inj.mp this) (by simp)

lemma fitsAux_isSome {g : Grid} {row col : Int} {offs : List (Int × Int)}
    (hwf : GridWF g) (hb : ∀ o ∈ offs, InBounds (o.1 + row) (o.2 + col)) :
    ∃ b, fitsAux g row col offs = some b := by
  induction offs with
  | nil => exact ⟨true, rfl⟩
  | cons a rest ih =>
    obtain ⟨v, hv⟩ := getCell_isSome hwf (hb a (List.mem_cons_self a rest))
    obtain ⟨b, hbr⟩ := ih (fun o ho => hb o (List.mem_cons_of_mem a ho))
    rw [show a = (a.1, a.2) from rfl, fitsAux, hv, Option.some_bind]
    by_cases hv1 : v = 1
    · exact ⟨false, by rw [if_pos hv1]⟩
    · exact ⟨b, by rw [if_neg hv1]; exact hbr⟩

/-- The spawn cells of any piece at `(0, 4)` with rotation 0 stay within
the 20×10 grid. -/
lemma spawn_offsets_bound :
    ∀ p : Piece, ∀ offs ∈ rotationOffsets p, ∀ o ∈ offs,
      InBounds (o.1 + 0) (o.2 + 4) ∧ InBounds (0 + o.1) (4 + o.2) := by decide

end TetrisRs

/-! ## Row operations: `shiftDown`, `rowSum`, `clearLoop` -/

namespace TetrisRs

lemma minRow_nonneg {P : List (Int × Int)} (h : ∀ q ∈ P, 0 ≤ q.1) :
    0 ≤ minRow P := by
  unfold minRow
  have key : ∀ (L : List (Int × Int)) (a : Int), (∀ q ∈ L, 0 ≤ q.1) → 0 ≤ a →
      0 ≤ L.foldl (fun m p => min m p.1) a := by
    intro L
    induction L with
    | nil => intro a _ ha; exact ha
    | cons x rest ih =>
      intro a hb ha
      rw [List.foldl_cons]
      exact ih _ (fun q hq => hb q (List.mem_cons_of_mem x hq))
        (le_min ha (hb x (List.mem_cons_self x rest)))
  exact key P _ h (by unfold NROWS; omega)

lemma minRow_le_NROWS (P : List (Int × Int)) : minRow P ≤ (NROWS : Int) := by
  unfold minRow
  have key : ∀ (L : List (Int × Int)) (a : Int), a ≤ (NROWS : Int) →
      L.foldl (fun m p => min m p.1) a ≤ (NROWS : Int) := by
    intro L
    induction L with
    | nil => intro a ha; exact ha
    | cons x rest ih =>
      intro a ha
      rw [List.foldl_cons]
      exact ih _ (le_trans (min_le_left _ _) ha)
  exact key P _ le_rfl

lemma maxRow_le {P : List (Int × Int)} {B : Int} (hB : 0 ≤ B)
    (h : ∀ q ∈ P, q.1 ≤ B) : maxRow P ≤ B := by
  unfold maxRow
  have key : ∀ (L : List (Int × Int)) (a : Int), (∀ q ∈ L, q.1 ≤ B) → a ≤ B →
      L.foldl (fun m p => max m p.1) a ≤ B := by
    intro L
    induction L with
    | nil => intro a _ ha; exact ha
    | cons x rest ih =>
      intro a hb ha
      rw [List.foldl_cons]
      exact ih _ (fun q hq => hb q (List.mem_cons_of_mem x hq))
        (max_le ha (hb x (List.mem_cons_self x rest)))
  exact key P _ h hB

lemma copyRowFromAbove_isSome {g : Grid} {r : Nat} (hwf : GridWF g)
    (hr : r < NROWS) : ∃ g', copyRowFromAbove g r = some g' ∧ GridWF g' := by
  obtain ⟨hlen, hrows⟩ := hwf
  have hrl : r < g.length := by omega
  have hrl1 : r - 1 < g.length := by omega
  have hdst : g[r]? = some g[r] := List.getElem?_eq_getElem hrl
  have hsrc : g[r - 1]? = some g[r - 1] := List.getElem?_eq_getElem hrl1
  have hd : (g[r]).length = NCOLS := hrows _ (List.getElem_mem hrl)
  have hs : (g[r - 1]).length = NCOLS := hrows _ (List.getElem_mem hrl1)
  refine ⟨g.set r g[r - 1], ?_, ?_, ?_⟩
  · unfold copyRowFromAbove
    rw [hdst, hsrc]
    simp [hd, hs]
  · rw [List.length_set]; exact hlen
  · intro row' hmem'
    rcases List.mem_or_eq_of_mem_set hmem' with h' | h'
    · exact hrows _ h'
    · subst h'; exact hs

lemma GridWF_of_copyRowFromAbove {g g' : Grid} {r : Nat}
    (h : copyRowFromAbove g r = some g') (hwf : GridWF g) : GridWF g' := by
  unfold copyRowFromAbove at h
  cases hdst : g[r]? with
  | none => rw [hdst] at h; exact absurd h (by simp)
  | some dst =>
    cases hsrc : g[r - 1]? with
    | none => rw [hdst, hsrc] at h; exact absurd h (by simp)
    | some src =>
      rw [hdst, hsrc] at h
      dsimp only at h
      by_cases hlens : dst.length = NCOLS ∧ src.length = NCOLS
      · rw [if_pos hlens] at h
        obtain ⟨hlen, hrows⟩ := hwf
        rw [← Option.some_inj.mp h]
        constructor
        · rw [List.length_set]; exact hlen
        · intro row' hmem'
          rcases List.mem_or_eq_of_mem_set hmem' with h' | h'
          · exact hrows _ h'
          · subst h'; exact hlens.2
      · rw [if_neg hlens] at h; exact absurd h (by simp)

lemma shiftDownLoop_isSome {g : Grid} {k : Nat} (hwf : GridWF g)
    (hk : k < NROWS) : ∃ g', shiftDownLoop g k = some g' ∧ GridWF g' := by
  induction k generalizing g with
  | zero => exact ⟨g, rfl, hwf⟩
  | succ r ih =>
    obtain ⟨g1, hg1, hwf1⟩ := copyRowFromAbove_isSome hwf hk
    obtain ⟨g', hg', hwf'⟩ := ih hwf1 (Nat.lt_of_succ_lt hk)
    refine ⟨g', ?_, hwf'⟩
    rw [shiftDownLoop, hg1, Option.some_bind]
    exact hg'

lemma GridWF_of_shiftDownLoop {g g' : Grid} {k : Nat}
    (h : shiftDownLoop g k = some g') (hwf : GridWF g) : GridWF g' := by
  induction k generalizing g with
  | zero => rw [shiftDownLoop] at h; exact Option.some_inj.mp h ▸ hwf
  | succ r ih =>
    rw [shiftDownLoop] at h
    cases hc : copyRowFromAbove g (r + 1) with
    | none => rw [hc] at h; exact absurd h (by simp)
    | some g1 =>
      rw [hc, Option.some_bind] at h
      exact ih h (GridWF_of_copyRowFromAbove hc hwf)

lemma zeroTopRow_isSome {g : Grid} (hwf : GridWF g) :
    ∃ g', zeroTopRow g = some g' ∧ GridWF g' := by
  obtain ⟨hlen, hrows⟩ := hwf
  have h0 : 0 < g.length := by rw [hlen]; unfold NROWS; omega
  have hget : g[0]? = some g[0] := List.getElem?_eq_getElem h0
  refine ⟨g.set 0 (List.replicate NCOLS 0), ?_, ?_, ?_⟩
  · unfold zeroTopRow
    rw [hget]
    simp [hrows _ (List.getElem_mem h0)]
  · rw [List.length_set]; exact hlen
  · intro row' hmem'
    rcases List.mem_or_eq_of_mem_set hmem' with h' | h'
    · exact hrows _ h'
    · subst h'; exact List.length_replicate ..

lemma GridWF_of_zeroTopRow {g g' : Grid} (h : zeroTopRow g = some g')
    (hwf : GridWF g) : GridWF g' := by
  unfold zeroTopRow at h
  cases hget : g[0]? with
  | none => rw [hget] at h; exact absurd h (by simp)
  | some r0 =>
    rw [hget] at h
    dsimp only at h
    by_cases hl : r0.length = NCOLS
    · rw [if_pos hl] at h
      obtain ⟨hlen, hrows⟩ := hwf
      rw [← Option.some_inj.mp h]
      constructor
      · rw [List.length_set]; exact hlen
      · intro row' hmem'
        rcases List.mem_or_eq_of_mem_set hmem' with h' | h'
        · exact hrows _ h'
        · subst h'; exact List.length_replicate ..
    · rw [if_neg hl] at h; exact absurd h (by simp)

lemma shiftDown_isSome {g : Grid} {row : Int} (hwf : GridWF g)
    (h0 : 0 ≤ row) (hN : row < (NROWS : Int)) :
    ∃ g', shiftDown g row = some g' ∧ GridWF g' := by
  have hk : row.toNat - 1 < NROWS := by unfold NROWS at hN ⊢; omega
  obtain ⟨g1, hg1, hwf1⟩ := shiftDownLoop_isSome hwf hk
  obtain ⟨g', hg', hwf'⟩ := zeroTopRow_isSome hwf1
  refine ⟨g', ?_, hwf'⟩
  unfold shiftDown
  rw [if_pos h0, hg1, Option.some_bind]
  exact hg'

lemma GridWF_of_shiftDown {g g' : Grid} {row : Int}
    (h : shiftDown g row = some g') (hwf : GridWF g) : GridWF g' := by
  unfold shiftDown at h
  by_cases h0 : 0 ≤ row
  · rw [if_pos h0] at h
    cases hl : shiftDownLoop g (row.toNat - 1) with
    | none => rw [hl] at h; exact absurd h (by simp)
    | some g1 =>
      rw [hl, Option.some_bind] at h
      exact GridWF_of_zeroTopRow h (GridWF_of_shiftDownLoop hl hwf)
  · rw [if_neg h0] at h; exact absurd h (by simp)

lemma rowSum_isSome {g : Grid} {row : Int} (hwf : GridWF g)
    (h0 : 0 ≤ row) (hN : row < (NROWS : Int)) :
    ∃ s, rowSum g row = some s := by
  obtain ⟨hlen, -⟩ := hwf
  have hlt : row.toNat < g.length := by rw [hlen]; unfold NROWS at hN ⊢; omega
  refine ⟨(g[row.toNat]).foldr (· + ·) 0, ?_⟩
  unfold rowSum
  rw [if_pos h0, List.getElem?_eq_getElem hlt, Option.map_some']

lemma clearLoop_isSome {g : Grid} {row : Int} {n : Nat} (hwf : GridWF g)
    (h0 : 0 ≤ row) (hN : row + n ≤ (NROWS : Int)) :
    ∃ g', clearLoop g row n = some g' ∧ GridWF g' := by
  induction n generalizing g row with
  | zero => exact ⟨g, rfl, hwf⟩
  | succ m ih =>
    have hrN : row < (NROWS : Int) := by
      have : ((m : Int) + 1) = ((m + 1 : Nat) : Int) := by push_cast; ring
      omega
    obtain ⟨s, hs⟩ := rowSum_isSome hwf h0 hrN
    have hstep : ∃ g1, (if s = (NCOLS : Int) then shiftDown g row else some g) =
        some g1 ∧ GridWF g1 := by
      by_cases hfull : s = (NCOLS : Int)
      · rw [if_pos hfull]
        exact shiftDown_isSome hwf h0 hrN
      · rw [if_neg hfull]
        exact ⟨g, rfl, hwf⟩
    obtain ⟨g1, hg1, hwf1⟩ := hstep
    have hN' : row + 1 + m ≤ (NROWS : Int) := by
      have : ((m : Int) + 1) = ((m + 1 : Nat) : Int) := by push_cast; ring
      omega
    obtain ⟨g', hg', hwf'⟩ := ih hwf1 (by omega) hN'
    refine ⟨g', ?_, hwf'⟩
    rw [clearLoop, hs, Option.some_bind, hg1, Option.some_bind]
    exact hg'

lemma GridWF_of_clearLoop {g g' : Grid} {row : Int} {n : Nat}
    (h : clearLoop g row n = some g') (hwf : GridWF g) : GridWF g' := by
  induction n generalizing g row with
  | zero => rw [clearLoop] at h; exact Option.some_inj.mp h ▸ hwf
  | succ m ih =>
    rw [clearLoop] at h
    cases hs : rowSum g row with
    | none => rw [hs] at h; exact absurd h (by simp)
    | some s =>
      rw [hs, Option.some_bind] at h
      cases hg1 : (if s = (NCOLS : Int) then shiftDown g row else some g) with
      | none => rw [hg1] at h; exact absurd h (by simp)
      | some g1 =>
        rw [hg1, Option.some_bind] at h
        have hwf1 : GridWF g1 := by
          by_cases hfull : s = (NCOLS : Int)
          · rw [if_pos hfull] at hg1
            exact GridWF_of_shiftDown hg1 hwf
          · rw [if_neg hfull] at hg1
            exact Option.some_inj.mp hg1 ▸ hwf
        exact ih h hwf1

end TetrisRs

/-! ## The two branches of `tick` -/

namespace TetrisRs

lemma pieceOfInt_idx_next :
    ∀ p : Piece, pieceOfInt ((p.idx + 1) % 7) = some (nextPiece p) := by decide

lemma update_eq_paint {g : Grid} {p : Piece} {ρ : Int} {offs : List (Int × Int)}
    (hoffs : offsetsAt p ρ = some offs) (ar ac : Int) (fill : Bool) :
    update g p ρ ar ac fill =
      paintCells (if fill then 1 else 0) g
        (offs.map fun o => (ar + o.1, ac + o.2)) := by
  rw [update, hoffs, Option.some_bind]

lemma canDropAux_of_canDrop {t : Tetris} {P : List (Int × Int)} {b : Bool}
    (hP : fallingPiecePositions t = some P) (h : canDrop t = some b) :
    canDropAux t.grid P P = some b := by
  rw [canDrop, hP, Option.some_bind] at h
  exact h

/-- The drop branch of `tick`, fully characterized: under the footprint
invariant, when `can_drop` answers `true` the tick succeeds, moves the
anchor down one row, paints the shifted footprint, erases the vacated
cells, and touches nothing else. -/
lemma tick_drop_branch {t : Tetris} {P : List (Int × Int)}
    (hwf : GridWF t.grid) (h0 : 0 ≤ t.rotation) (h4 : t.rotation < 4)
    (hP : fallingPiecePositions t = some P)
    (hb : ∀ q ∈ P, InBounds q.1 q.2)
    (hcd : canDrop t = some true) :
    ∃ g2,
      tick t =
        some (true, { t with grid := g2, anchor_row := t.anchor_row + 1 }) ∧
      GridWF g2 ∧
      (∀ q ∈ shiftedDown1 P, InBounds q.1 q.2) ∧
      (∀ q ∈ shiftedDown1 P, getCell g2 q.1 q.2 = some 1) ∧
      (∀ r c, (r, c) ∉ P → (r, c) ∉ shiftedDown1 P →
        getCell g2 r c = getCell t.grid r c) ∧
      (∀ q ∈ P, q ∉ shiftedDown1 P → getCell g2 q.1 q.2 = some 0) := by
  obtain ⟨offs, hoffs, hmem, hPeq⟩ := fallingPiecePositions_eq h0 h4
  rw [hP] at hPeq
  have hPval := (Option.some_inj.mp hPeq).symm
  -- the erased cells are exactly the footprint
  have herase := update_eq_paint hoffs (g := t.grid) t.anchor_row t.anchor_col false
  rw [hPval] at herase
  norm_num at herase
  obtain ⟨g1, hg1, hwf1⟩ := paintCells_isSome (v := 0) hwf hb
  -- the painted cells are exactly the footprint shifted one row down
  have hcells : (offs.map fun o => (t.anchor_row + 1 + o.1, t.anchor_col + o.2))
      = shiftedDown1 P := by
    rw [← hPval, shiftedDown1, List.map_map]
    exact (List.map_congr_left fun o _ => by
      simp only [Function.comp_apply]
      rw [Int.add_right_comm]).symm
  have hpaint := update_eq_paint hoffs (g := g1) (t.anchor_row + 1) t.anchor_col true
  rw [hcells] at hpaint
  norm_num at hpaint
  -- bounds for the shifted footprint
  have hnb := canDropAux_true_no_bottom hwf hb (canDropAux_of_canDrop hP hcd)
  have hb' : ∀ q ∈ shiftedDown1 P, InBounds q.1 q.2 := by
    intro q hq
    obtain ⟨p', hp', hpq⟩ := List.mem_map.mp hq
    obtain ⟨h1, h2, h3, h4'⟩ := hb p' hp'
    have hnb' := hnb p' hp'
    subst hpq
    refine ⟨by omega, ?_, h3, h4'⟩
    unfold NROWS at h2 hnb' ⊢
    omega
  obtain ⟨g2, hg2, hwf2⟩ := paintCells_isSome (v := 1) hwf1 hb'
  refine ⟨g2, ?_, hwf2, hb', ?_, ?_, ?_⟩
  · rw [tick, hcd, Option.some_bind, if_pos rfl, herase, hg1, Option.some_bind,
      hpaint, hg2, Option.map_some']
  · intro q hq
    have := getCell_paintCells_mem hg2 hq
    simpa using this
  · intro r c hnP hnS
    have h1 := getCell_paintCells_notMem hg2 hnS
    have h2 := getCell_paintCells_notMem hg1 hnP
    rw [h1, h2]
  · intro q hqP hqnS
    have h1 : getCell g2 q.1 q.2 = getCell g1 q.1 q.2 :=
      getCell_paintCells_notMem hg2 (by
        intro hm
        exact hqnS (by simpa using hm))
    have h2 := getCell_paintCells_mem hg1 hqP
    rw [h1]
    exact h2

end TetrisRs

namespace TetrisRs

/-- Destructuring a successful `tick` whose `can_drop` answered `false`:
the landed branch clears full rows in the footprint's row span, then either
spawns the cyclic successor at `(0, 4)` (continue) or stops with the
post-clear grid and otherwise untouched state. -/
lemma tick_landed_cases {t : Tetris} {b : Bool} {t' : Tetris}
    (hcd : canDrop t = some false) (ht : tick t = some (b, t')) :
    ∃ P g1, fallingPiecePositions t = some P ∧
      clearLoop t.grid (minRow P) (maxRow P + 1 - minRow P).toNat = some g1 ∧
      ((∃ g2, fits g1 (nextPiece t.piece) 0 4 0 = some true ∧
          update g1 (nextPiece t.piece) 0 0 4 true = some g2 ∧
          b = true ∧
          t' = { grid := g2, piece := nextPiece t.piece, rotation := 0,
                 anchor_row := 0, anchor_col := 4 }) ∨
        (fits g1 (nextPiece t.piece) 0 4 0 = some false ∧ b = false ∧
          t' = { t with grid := g1 })) := by
  rw [tick, hcd, Option.some_bind] at ht
  rw [if_neg (by simp)] at ht
  cases hP : fallingPiecePositions t with
  | none => rw [hP] at ht; exact absurd ht (by simp)
  | some P =>
    rw [hP, Option.some_bind] at ht
    cases hclear : clearLoop t.grid (minRow P) (maxRow P + 1 - minRow P).toNat
      with
    | none => rw [hclear] at ht; exact absurd ht (by simp)
    | some g1 =>
      rw [hclear, Option.some_bind, pieceOfInt_idx_next, Option.some_bind]
        at ht
      cases hfits : fits g1 (nextPiece t.piece) 0 4 0 with
      | none => rw [hfits] at ht; exact absurd ht (by simp)
      | some f =>
        rw [hfits, Option.some_bind] at ht
        refine ⟨P, g1, rfl, hclear, ?_⟩
        cases f with
        | true =>
          rw [if_pos rfl] at ht
          cases hup : update g1 (nextPiece t.piece) 0 0 4 true with
          | none => rw [hup] at ht; exact absurd ht (by simp)
          | some g2 =>
            rw [hup, Option.map_some'] at ht
            obtain ⟨hb', ht'⟩ := Prod.mk.injEq .. ▸ Option.some_inj.mp ht
            exact Or.inl ⟨g2, hfits, rfl, hb'.symm, ht'.symm⟩
        | false =>
          rw [if_neg (by simp)] at ht
          obtain ⟨hb', ht'⟩ := Prod.mk.injEq .. ▸ Option.some_inj.mp ht
          exact Or.inr ⟨hfits, hb'.symm, ht'.symm⟩

/-- The landed branch never panics under the footprint invariant. -/
lemma tick_landed_total {t : Tetris} {P : List (Int × Int)}
    (hwf : GridWF t.grid)
    (hP : fallingPiecePositions t = some P)
    (hb : ∀ q ∈ P, InBounds q.1 q.2)
    (hcd : canDrop t = some false) :
    ∃ r, tick t = some r := by
  have hmn0 : 0 ≤ minRow P := minRow_nonneg (fun q hq => (hb q hq).1)
  have hmn20 : minRow P ≤ (NROWS : Int) := minRow_le_NROWS P
  have hmx : maxRow P ≤ (NROWS : Int) - 1 := by
    refine maxRow_le (by unfold NROWS; omega) ?_
    intro q hq
    have := (hb q hq).2.1
    omega
  have hbound : minRow P + ((maxRow P + 1 - minRow P).toNat : Int) ≤
      (NROWS : Int) := by omega
  obtain ⟨g1, hclear, hwf1⟩ := clearLoop_isSome hwf hmn0 hbound
  obtain ⟨offs0, hoffs0, hmem0⟩ :=
    offsetsAt_eq_some (p := nextPiece t.piece) (ρ := 0) le_rfl (by norm_num)
  have hsb := spawn_offsets_bound (nextPiece t.piece) offs0 hmem0
  obtain ⟨f, hf⟩ := fitsAux_isSome hwf1 (fun o ho => (hsb o ho).1)
  have hfits : fits g1 (nextPiece t.piece) 0 4 0 = some f := by
    rw [fits, hoffs0, Option.some_bind]
    exact hf
  cases f with
  | true =>
    have hpb : ∀ q ∈ offs0.map fun o => ((0 : Int) + o.1, (4 : Int) + o.2),
        InBounds q.1 q.2 := by
      intro q hq
      obtain ⟨o, ho, rfl⟩ := List.mem_map.mp hq
      exact (hsb o ho).2
    obtain ⟨g2, hg2, -⟩ := paintCells_isSome (v := 1) hwf1 hpb
    refine ⟨(true, ⟨g2, nextPiece t.piece, 0, 0, 4⟩), ?_⟩
    rw [tick, hcd, Option.some_bind, if_neg (by simp), hP, Option.some_bind,
      hclear, Option.some_bind, pieceOfInt_idx_next, Option.some_bind, hfits,
      Option.some_bind, if_pos rfl, update_eq_paint hoffs0]
    norm_num at hg2 ⊢
    rw [hg2]
  | false =>
    refine ⟨(false, { t with grid := g1 }), ?_⟩
    rw [tick, hcd, Option.some_bind, if_neg (by simp), hP, Option.some_bind,
      hclear, Option.some_bind, pieceOfInt_idx_next, Option.some_bind, hfits,
      Option.some_bind, if_neg (by simp)]

end TetrisRs

/-! ## The deterministic orbit and the game-over fixed point -/

namespace TetrisRs

lemma orbitFrom_zero (t : Tetris) : orbitFrom t 0 = some t := rfl

lemma orbitFrom_succ (t : Tetris) (k : Nat) :
    orbitFrom t (k + 1) = (tick t).bind fun r => orbitFrom r.2 k := rfl

lemma orbitFrom_add (t : Tetris) (m k : Nat) :
    orbitFrom t (m + k) = (orbitFrom t m).bind fun s => orbitFrom s k := by
  induction m generalizing t with
  | zero => rw [Nat.zero_add, orbitFrom_zero, Option.some_bind]
  | succ m ih =>
    rw [Nat.succ_add, orbitFrom_succ, orbitFrom_succ, Option.bind_assoc]
    cases tick t with
    | none => rfl
    | some r =>
      rw [Option.some_bind, Option.some_bind]
      exact ih r.2

lemma orbitFrom_fix {s : Tetris} (hfix : tick s = some (false, s)) :
    ∀ k, orbitFrom s k = some s := by
  intro k
  induction k with
  | zero => rfl
  | succ k ih => rw [orbitFrom_succ, hfix, Option.some_bind]; exact ih

lemma ticksAllTrue_orbitFrom {n : Nat} {t u : Tetris}
    (h : ticksAllTrue n t = some u) : orbitFrom t n = some u := by
  induction n generalizing t with
  | zero => exact h
  | succ n ih =>
    rw [ticksAllTrue] at h
    cases htick : tick t with
    | none => rw [htick] at h; exact absurd h (by simp)
    | some r =>
      rw [htick, Option.some_bind] at h
      by_cases hr : r.1 = true
      · rw [if_pos hr] at h
        rw [orbitFrom_succ, htick, Option.some_bind]
        exact ih h
      · rw [if_neg hr] at h; exact absurd h (by simp)

lemma ticksAllTrue_true_at {n : Nat} {t u : Tetris}
    (h : ticksAllTrue n t = some u) :
    ∀ k < n, ∀ s, orbitFrom t k = some s →
      (tick s).map Prod.fst = some true := by
  induction n generalizing t with
  | zero => intro k hk; omega
  | succ n ih =>
    intro k hk s hs
    rw [ticksAllTrue] at h
    cases htick : tick t with
    | none => rw [htick] at h; exact absurd h (by simp)
    | some r =>
      rw [htick, Option.some_bind] at h
      by_cases hr : r.1 = true
      · rw [if_pos hr] at h
        cases k with
        | zero =>
          rw [orbitFrom_zero] at hs
          rw [← Option.some_inj.mp hs, htick, Option.map_some', hr]
        | succ k =>
          rw [orbitFrom_succ, htick, Option.some_bind] at hs
          exact ih h k (by omega) s hs
      · rw [if_neg hr] at h; exact absurd h (by simp)

lemma new_eq_initState : Tetris.new = some initState := by decide

lemma run80 : ticksAllTrue 80 initState = some gameOverState := by decide

lemma gameOver_fix : tick gameOverState = some (false, gameOverState) := by
  decide

end TetrisRs

/-! ## Claim theorems -/

namespace TetrisRs

/-- Claim C10: `event` is a complete no-op: the source declares
`pub fn event() {}` with no parameters (no movement/rotation intent data)
and no access to the state, so as a state transformation it leaves the
grid, the active piece, the rotation, and the anchor unchanged for every
simulation state. -/
theorem c10_event_noop (t : Tetris) :
    Tetris.event t = t ∧ (Tetris.event t).grid = t.grid ∧
    (Tetris.event t).piece = t.piece ∧
    (Tetris.event t).rotation = t.rotation ∧
    (Tetris.event t).anchor_row = t.anchor_row ∧
    (Tetris.event t).anchor_col = t.anchor_col :=
  ⟨rfl, rfl, rfl, rfl, rfl, rfl⟩

/-- Claim C8: starting from `new()`, 19 consecutive ticks each return `true`
(`ticksAllTrue` yields `none` otherwise), and the result is exactly
`c8State`: the `O` piece resting at the bottom on cells
`(18,4), (18,5), (19,4), (19,5)`, with the second enumerated piece `L`
freshly spawned as the active piece at anchor `(0, 4)` and rotation 0. -/
theorem c8_nineteen_ticks :
    Tetris.new.bind (ticksAllTrue 19) = some c8State ∧
    c8State.piece = .L ∧ c8State.rotation = 0 ∧
    c8State.anchor_row = 0 ∧ c8State.anchor_col = 4 ∧
    getCell c8State.grid 18 4 = some 1 ∧ getCell c8State.grid 18 5 = some 1 ∧
    getCell c8State.grid 19 4 = some 1 ∧ getCell c8State.grid 19 5 = some 1 := by
  decide

/-- Claim C1 (refuted: the code contradicts the claim and its own doc
comment): in `c1State` the `O` piece has landed and row 19 is completely
full, so the claim demands that after the tick row 19 hold the previous
contents of row 18 (`[0,0,0,0,1,1,0,0,0,0]`) and that occupancy be
preserved except for the cleared row.  The code's `shift_down(19)` iterates
the exclusive range `1..19`, so it never writes row 19: the completely
filled row keeps its all-ones contents, and old row 18 is what disappears
instead. -/
theorem c1_row_clear_divergence :
    canDrop c1State = some false ∧
    rowSum c1State.grid 19 = some ((NCOLS : Int)) ∧
    tick c1State = some (true, c1Result) ∧
    c1Result.grid[19]? = some [1, 1, 1, 1, 1, 1, 1, 1, 1, 1] ∧
    c1Result.grid[19]? ≠ some [0, 0, 0, 0, 1, 1, 0, 0, 0, 0] ∧
    c1Result.grid[18]? = some [0, 0, 0, 0, 0, 0, 0, 0, 0, 0] := by
  decide

/-- Claim C2: whenever the falling piece is blocked and — after the row-clear
step produced `g1` — the deterministic successor does not fit at the fixed
spawn position `(0, 4)` with rotation 0, `tick` returns `false` and the
resulting state is exactly the post-clear state: grid `g1`, with the piece
identity, rotation, and anchor untouched and no cell of the failed
successor painted. -/
theorem c2_game_over_leaves_state (t : Tetris) (P : List (Int × Int))
    (g1 : Grid) (hcd : canDrop t = some false)
    (hP : fallingPiecePositions t = some P)
    (hclear : clearLoop t.grid (minRow P) (maxRow P + 1 - minRow P).toNat =
      some g1)
    (hfits : fits g1 (nextPiece t.piece) 0 4 0 = some false) :
    tick t = some (false, { t with grid := g1 }) := by
  rw [tick, hcd, Option.some_bind, if_neg (by simp), hP, Option.some_bind,
    hclear, Option.some_bind, pieceOfInt_idx_next, Option.some_bind, hfits,
    Option.some_bind, if_neg (by simp)]

theorem c2_game_over_leaves_state_witness :
    tick c2State = some (false, { c2State with grid := c2State.grid }) :=
  c2_game_over_leaves_state c2State [(18, 4), (18, 5), (19, 4), (19, 5)]
    c2State.grid (by decide) (by decide) (by decide) (by decide)

/-- Claim C7: whenever a landed piece is replaced (the landed branch of
`tick` returns `true`), the successor is `nextPiece` of the current piece —
the piece with discriminant `(current + 1) % 7` — and `nextPiece` runs
through the fixed order `O, L, J, T, Z, S, I`, wrapping from `I` back to
`O`, so seven successions return to the starting piece. -/
theorem c7_piece_succession :
    (∀ (t t' : Tetris) (b : Bool), canDrop t = some false →
      tick t = some (b, t') → b = true → t'.piece = nextPiece t.piece) ∧
    (nextPiece .O = .L ∧ nextPiece .L = .J ∧ nextPiece .J = .T ∧
      nextPiece .T = .Z ∧ nextPiece .Z = .S ∧ nextPiece .S = .I ∧
      nextPiece .I = .O) ∧
    (∀ p : Piece, nextPiece^[7] p = p) ∧
    (∀ p : Piece, pieceOfInt ((p.idx + 1) % 7) = some (nextPiece p)) := by
  refine ⟨?_, by decide, by decide, pieceOfInt_idx_next⟩
  intro t t' b hcd ht hb
  subst hb
  obtain ⟨P, g1, -, -, hcases⟩ := tick_landed_cases hcd ht
  rcases hcases with ⟨g2, -, -, -, ht'⟩ | ⟨-, hb', -⟩
  · rw [ht']
  · exact absurd hb'.symm (by simp)

theorem c7_piece_succession_witness :
    c1Result.piece = nextPiece c1State.piece :=
  c7_piece_succession.1 c1State c1Result true (by decide) (by decide) rfl

/-- Claim C5: under the footprint invariant, `can_drop` answers `false` if
and only if some footprint cell `(r, c)` has its cell one row below either
equal to row 20 (off-grid) or occupied in the grid while `(r+1, c)` is not
itself a footprint cell of the falling piece. -/
theorem c5_can_drop_blocked_iff (t : Tetris) (P : List (Int × Int))
    (hinv : FootInv t) (hP : fallingPiecePositions t = some P) :
    canDrop t = some false ↔
      ∃ q ∈ P, q.1 + 1 = (NROWS : Int) ∨
        ((q.1 + 1, q.2) ∉ P ∧ getCell t.grid (q.1 + 1) q.2 = some 1) := by
  obtain ⟨hwf, h0, h4, hfb⟩ := hinv
  have hb : ∀ q ∈ P, InBounds q.1 q.2 := by
    rw [hP] at hfb
    exact hfb
  rw [canDrop, hP, Option.some_bind]
  exact canDropAux_false_iff hwf hb

theorem c5_can_drop_blocked_iff_witness :
    (canDrop initState = some false ↔
      ∃ q ∈ ([((0 : Int), (4 : Int)), (0, 5), (1, 4), (1, 5)] :
          List (Int × Int)), q.1 + 1 = (NROWS : Int) ∨
        ((q.1 + 1, q.2) ∉ ([((0 : Int), (4 : Int)), (0, 5), (1, 4), (1, 5)] :
          List (Int × Int)) ∧ getCell initState.grid (q.1 + 1) q.2 = some 1)) :=
  c5_can_drop_blocked_iff initState _ (by decide) (by decide)

end TetrisRs

namespace TetrisRs

/-- Claim C9: `tick` is total on every state satisfying the footprint
invariant (grid of the type-fixed 20×10 shape, rotation index in `[0, 4)`,
all four footprint cells in bounds): the footprint lookup, the `can_drop`
scan, and the whole tick succeed — equivalently, the `none` (panic)
branches of the embedded `update`, `falling_piece_positions`, `fits`,
`can_drop`, `shift_down`, and `tick` are never taken. -/
theorem c9_tick_total (t : Tetris) (h : FootInv t) :
    (fallingPiecePositions t).isSome ∧ (canDrop t).isSome ∧
    ∃ r, tick t = some r := by
  obtain ⟨hwf, h0, h4, hfb⟩ := h
  obtain ⟨offs, hoffs, hmem, hP⟩ := fallingPiecePositions_eq h0 h4
  have hb : ∀ q ∈ offs.map (fun o => (t.anchor_row + o.1, t.anchor_col + o.2)),
      InBounds q.1 q.2 := by
    rw [hP] at hfb
    exact hfb
  obtain ⟨b, hcd'⟩ := canDropAux_isSome (g := t.grid)
    (P := offs.map fun o => (t.anchor_row + o.1, t.anchor_col + o.2)) hwf hb
  have hcd : canDrop t = some b := by
    rw [canDrop, hP, Option.some_bind]
    exact hcd'
  refine ⟨by rw [hP]; rfl, by rw [hcd]; rfl, ?_⟩
  cases b with
  | true =>
    obtain ⟨g2, ht, -, -, -, -, -⟩ := tick_drop_branch hwf h0 h4 hP hb hcd
    exact ⟨_, ht⟩
  | false => exact tick_landed_total hwf hP hb hcd

theorem c9_tick_total_witness :
    (fallingPiecePositions initState).isSome ∧ (canDrop initState).isSome ∧
    ∃ r, tick initState = some r :=
  c9_tick_total initState (by decide)

/-- Claim C4: whenever the can-drop test holds (under the footprint
invariant), the tick returns `true`, keeps the piece identity, rotation,
and anchor column, increments the anchor row by exactly 1, the successor's
footprint is the old footprint shifted one row lower and is marked with 1s,
every grid cell outside the old and new footprints is unchanged, and the
vacated cells of the old footprint are cleared to 0. -/
theorem c4_drop_frame_effect (t : Tetris) (P : List (Int × Int))
    (hinv : FootInv t) (hP : fallingPiecePositions t = some P)
    (hcd : canDrop t = some true) :
    ∃ t', tick t = some (true, t') ∧
      t'.piece = t.piece ∧ t'.rotation = t.rotation ∧
      t'.anchor_col = t.anchor_col ∧ t'.anchor_row = t.anchor_row + 1 ∧
      fallingPiecePositions t' = some (shiftedDown1 P) ∧
      (∀ q ∈ shiftedDown1 P, getCell t'.grid q.1 q.2 = some 1) ∧
      (∀ r c, (r, c) ∉ P → (r, c) ∉ shiftedDown1 P →
        getCell t'.grid r c = getCell t.grid r c) ∧
      (∀ q ∈ P, q ∉ shiftedDown1 P → getCell t'.grid q.1 q.2 = some 0) := by
  obtain ⟨hwf, h0, h4, hfb⟩ := hinv
  have hb : ∀ q ∈ P, InBounds q.1 q.2 := by
    rw [hP] at hfb
    exact hfb
  obtain ⟨g2, ht, hwf2, hbS, hmem1, hframe, herase⟩ :=
    tick_drop_branch hwf h0 h4 hP hb hcd
  refine ⟨_, ht, rfl, rfl, rfl, rfl, ?_, hmem1, hframe, herase⟩
  obtain ⟨offs, hoffs, hmem, hPeq⟩ := fallingPiecePositions_eq h0 h4
  rw [hP] at hPeq
  have hPval := (Option.some_inj.mp hPeq).symm
  have hcells : (offs.map fun o => (t.anchor_row + 1 + o.1, t.anchor_col + o.2))
      = shiftedDown1 P := by
    rw [← hPval, shiftedDown1, List.map_map]
    exact List.map_congr_left fun o _ => by
      simp only [Function.comp_apply]
      rw [Int.add_right_comm]
  rw [fallingPiecePositions]
  dsimp only
  rw [hoffs, Option.map_some', hcells]

theorem c4_drop_frame_effect_witness :
    ∃ t', tick initState = some (true, t') ∧
      t'.piece = initState.piece ∧ t'.rotation = initState.rotation ∧
      t'.anchor_col = initState.anchor_col ∧
      t'.anchor_row = initState.anchor_row + 1 ∧
      fallingPiecePositions t' =
        some (shiftedDown1 [(0, 4), (0, 5), (1, 4), (1, 5)]) ∧
      (∀ q ∈ shiftedDown1 [(0, 4), (0, 5), (1, 4), (1, 5)],
        getCell t'.grid q.1 q.2 = some 1) ∧
      (∀ r c, (r, c) ∉ ([(0, 4), (0, 5), (1, 4), (1, 5)] : List (Int × Int)) →
        (r, c) ∉ shiftedDown1 [(0, 4), (0, 5), (1, 4), (1, 5)] →
        getCell t'.grid r c = getCell initState.grid r c) ∧
      (∀ q ∈ ([(0, 4), (0, 5), (1, 4), (1, 5)] : List (Int × Int)),
        q ∉ shiftedDown1 [(0, 4), (0, 5), (1, 4), (1, 5)] →
        getCell t'.grid q.1 q.2 = some 0) :=
  c4_drop_frame_effect initState [(0, 4), (0, 5), (1, 4), (1, 5)]
    (by decide) (by decide) (by decide)

/-- Claim C6: the state invariant holds in the state `new()` produces and is
preserved by every `tick` that returns `true`: each of the 4 cells implied
by `(piece, rotation, anchor)` via the rotation-offsets table lies within
`[0, 20) × [0, 10)` and is marked occupied (value 1) in the grid. -/
theorem c6_invariant_preserved :
    (∀ s, Tetris.new = some s → Inv s) ∧
    (∀ (t : Tetris) (b : Bool) (t' : Tetris), Inv t → tick t = some (b, t') →
      b = true → Inv t') := by
  constructor
  · intro s hs
    rw [new_eq_initState] at hs
    rw [← Option.some_inj.mp hs]
    decide
  · intro t b t' hinv ht hb
    subst hb
    obtain ⟨⟨hwf, h0, h4, hfb⟩, hpaintInv⟩ := hinv
    obtain ⟨offs, hoffs, hmem, hP⟩ := fallingPiecePositions_eq h0 h4
    have hb' : ∀ q ∈ offs.map
        (fun o => (t.anchor_row + o.1, t.anchor_col + o.2)),
        InBounds q.1 q.2 := by
      rw [hP] at hfb
      exact hfb
    obtain ⟨cd, hcd'⟩ := canDropAux_isSome (g := t.grid)
      (P := offs.map fun o => (t.anchor_row + o.1, t.anchor_col + o.2)) hwf hb'
    have hcd : canDrop t = some cd := by
      rw [canDrop, hP, Option.some_bind]
      exact hcd'
    cases cd with
    | true =>
      obtain ⟨g2, ht2, hwf2, hbS, hmem1, -, -⟩ :=
        tick_drop_branch hwf h0 h4 hP hb' hcd
      rw [ht2] at ht
      have ht' : t' = { t with grid := g2, anchor_row := t.anchor_row + 1 } :=
        (congrArg Prod.snd (Option.some_inj.mp ht)).symm
      subst ht'
      have hcells : (offs.map fun o =>
          (t.anchor_row + 1 + o.1, t.anchor_col + o.2)) =
          shiftedDown1 (offs.map fun o =>
            (t.anchor_row + o.1, t.anchor_col + o.2)) := by
        rw [shiftedDown1, List.map_map]
        exact List.map_congr_left fun o _ => by
          simp only [Function.comp_apply]
          rw [Int.add_right_comm]
      have hposNew : fallingPiecePositions
          { t with grid := g2, anchor_row := t.anchor_row + 1 } =
          some (shiftedDown1 (offs.map fun o =>
            (t.anchor_row + o.1, t.anchor_col + o.2))) := by
        rw [fallingPiecePositions]
        dsimp only
        rw [hoffs, Option.map_some', hcells]
      refine ⟨⟨hwf2, h0, h4, ?_⟩, ?_⟩
      · rw [hposNew]
        exact hbS
      · rw [hposNew]
        exact hmem1
    | false =>
      obtain ⟨P, g1, hPeq2, hclear, hcases⟩ := tick_landed_cases hcd ht
      rcases hcases with ⟨g2, hfits, hup, -, ht'⟩ | ⟨-, hb2, -⟩
      · subst ht'
        have hwf1 : GridWF g1 := GridWF_of_clearLoop hclear hwf
        obtain ⟨offs0, hoffs0, hmem0⟩ := offsetsAt_eq_some
          (p := nextPiece t.piece) (ρ := 0) le_rfl (by norm_num)
        rw [update_eq_paint hoffs0,
          show (if (true : Bool) = true then (1 : Int) else 0) = 1 from rfl]
          at hup
        have hwf2 : GridWF g2 := GridWF_of_paintCells hup hwf1
        have hsb := spawn_offsets_bound (nextPiece t.piece) offs0 hmem0
        have hposNew : fallingPiecePositions
            { grid := g2, piece := nextPiece t.piece, rotation := 0,
              anchor_row := 0, anchor_col := 4 } =
            some (offs0.map fun o => ((0 : Int) + o.1, (4 : Int) + o.2)) := by
          rw [fallingPiecePositions]
          dsimp only
          rw [hoffs0, Option.map_some']
        refine ⟨⟨hwf2, le_rfl, by norm_num, ?_⟩, ?_⟩
        · rw [hposNew]
          intro q hq
          obtain ⟨o, ho, rfl⟩ := List.mem_map.mp hq
          exact (hsb o ho).2
        · rw [hposNew]
          intro q hq
          exact getCell_paintCells_mem hup hq
      · exact absurd hb2.symm (by simp)

theorem c6_invariant_preserved_witness : Inv initState ∧ Inv oneTickState :=
  ⟨c6_invariant_preserved.1 initState new_eq_initState,
   c6_invariant_preserved.2 initState true oneTickState (by decide)
     (by decide) rfl⟩

/-- Claim C3: game over is terminal.  Every reachable state is on the
deterministic orbit of `new()` (the only mutator is `tick`, and `event`
carries no data); the first 80 ticks return `true`, and the game-over state
reached after them is a fixed point on which `tick` returns `false`
forever — so once a reachable state answers `false`, every subsequent tick
on the resulting state (and its successors) answers `false` as well. -/
theorem c3_game_over_terminal (s : Tetris) (hs : Reachable s) (b : Bool)
    (s₁ : Tetris) (ht : tick s = some (b, s₁)) (hb : b = false)
    (k : Nat) (s₂ : Tetris) (h₂ : orbitFrom s₁ k = some s₂) :
    (tick s₂).map Prod.fst = some false := by
  subst hb
  obtain ⟨n, hn⟩ := hs
  rw [orbit, new_eq_initState, Option.some_bind] at hn
  by_cases hlt : n < 80
  · have := ticksAllTrue_true_at run80 n hlt s hn
    rw [ht] at this
    exact absurd (Option.some_inj.mp this) (by simp)
  · have h80 : orbitFrom initState 80 = some gameOverState :=
      ticksAllTrue_orbitFrom run80
    have hn80 : n = 80 + (n - 80) := by omega
    rw [hn80, orbitFrom_add, h80, Option.some_bind,
      orbitFrom_fix gameOver_fix] at hn
    have hsGO : s = gameOverState := (Option.some_inj.mp hn).symm
    subst hsGO
    rw [gameOver_fix] at ht
    have hs₁ : s₁ = gameOverState :=
      (congrArg Prod.snd (Option.some_inj.mp ht)).symm
    subst hs₁
    rw [orbitFrom_fix gameOver_fix] at h₂
    have hs₂ : s₂ = gameOverState := (Option.some_inj.mp h₂).symm
    subst hs₂
    rw [gameOver_fix, Option.map_some']

theorem c3_game_over_terminal_witness :
    (tick gameOverState).map Prod.fst = some false :=
  c3_game_over_terminal gameOverState
    ⟨80, by
      rw [orbit, new_eq_initState, Option.some_bind]
      exact ticksAllTrue_orbitFrom run80⟩
    false gameOverState gameOver_fix rfl 1 gameOverState
    (orbitFrom_fix gameOver_fix 1)

end TetrisRs
